import Mathlib

/-!
Verification of the StepFlow ai-processor task-queue subsystem
(`src/packages/ai-processor/src/services/redis_service.py` and
`src/packages/ai-processor/src/services/queue_service.py`).

The embedding models:
* JSON values (`Json`) together with the serialization used by the service
  (`json.dumps` with default separators) and its inverse (`json.loads`),
  restricted to the repertoire the service produces: `null`, booleans,
  integers, strings escaped for quote and backslash, arrays and
  string-keyed objects.  Floats, `\uXXXX` escapes of control and
  non-ASCII characters are outside the modeled subset; no payload built
  by this repository needs them.
* the Redis sorted set used as priority queue (`zadd`, `zpopmin` with its
  lowest-score-then-lexicographically-smallest-member order, `zcard`),
* `RedisService` (`enqueue_task`, `dequeue_task`, `get_queue_size`,
  `set_task_status` with `hset` field-merge semantics; the `expire`
  call establishing the 1 h TTL is not modeled, no claim touches TTL),
* `QueueService` (`submit_task`, `_process_task` with the
  `asyncio.wait_for` deadline, one iteration of the `_worker` loop).

Every `try/except` wrapper in `redis_service.py` is modeled by a `fail`
flag selecting the except-branch of the wrapped Redis call.
-/

/-- JSON values as produced by `json.loads` / consumed by `json.dumps`;
numbers are modeled as integers (the service serializes ids, urls,
priorities; no claim involves float payloads). -/
inductive Json where
  | null : Json
  | bool (b : Bool) : Json
  | num (n : Int) : Json
  | str (s : String) : Json
  | arr (elems : List Json) : Json
  | obj (fields : List (String × Json)) : Json

/-- Decimal digit character, `chr(48 + d)`. -/
def digitChar (d : Nat) : Char := Char.ofNat (48 + d)

/-- Decimal digits of `n`, most significant first; fuel-driven so that it
reduces definitionally (`str(n)` for a natural number). -/
def natCharsAux : Nat → Nat → List Char
  | 0, _ => []
  | fuel + 1, n =>
    if n < 10 then [digitChar n]
    else natCharsAux fuel (n / 10) ++ [digitChar (n % 10)]

/-- `str(n)` for a natural number. -/
def natChars (n : Nat) : List Char := natCharsAux (n + 1) n

/-- `str(n)` for an integer (Python's `json.dumps` of an `int`). -/
def intChars (n : Int) : List Char :=
  if n < 0 then '-' :: natChars (-n).toNat else natChars n.toNat

/-- `json.dumps` escaping of one string character: quote and backslash
are escaped; the remaining characters of the modeled repertoire
(printable ASCII) pass through unescaped. -/
def escChar (c : Char) : List Char :=
  if c = '"' ∨ c = '\\' then ['\\', c] else [c]

/-- Body of a serialized JSON string. -/
def escChars (cs : List Char) : List Char :=
  cs.foldr (fun c r => escChar c ++ r) []

/-- A serialized JSON string including the surrounding quotes. -/
def encString (s : String) : List Char :=
  '"' :: (escChars s.data ++ ['"'])

mutual

/-- `json.dumps` with the default separators `", "` and `": "`, as the
character list of the produced string. -/
def dumpsL : Json → List Char
  | .null => "null".data
  | .bool true => "true".data
  | .bool false => "false".data
  | .num n => intChars n
  | .str s => encString s
  | .arr xs => '[' :: dumpsArr xs
  | .obj kvs => '{' :: dumpsObj kvs

/-- Array items of `json.dumps`, including the closing bracket. -/
def dumpsArr : List Json → List Char
  | [] => [']']
  | [x] => dumpsL x ++ [']']
  | x :: y :: xs => dumpsL x ++ ',' :: ' ' :: dumpsArr (y :: xs)

/-- Object items of `json.dumps`, including the closing brace. -/
def dumpsObj : List (String × Json) → List Char
  | [] => ['}']
  | [(k, v)] => encString k ++ ':' :: ' ' :: (dumpsL v ++ ['}'])
  | (k, v) :: kv :: kvs =>
    encString k ++ ':' :: ' ' :: (dumpsL v ++ ',' :: ' ' :: dumpsObj (kv :: kvs))

end

/-- `json.dumps(task_data)` as a string. -/
def dumps (j : Json) : String := String.mk (dumpsL j)

/-- Whitespace characters skipped by `json.loads`. -/
def isWs (c : Char) : Bool := c = ' ' ∨ c = '\t' ∨ c = '\n' ∨ c = '\r'

/-- Skip leading JSON whitespace. -/
def skipWs : List Char → List Char
  | [] => []
  | c :: r => if isWs c then skipWs r else c :: r

/-- Unescape one backslash-escaped character (`json.loads`; the `\uXXXX`
form is outside the modeled subset, the encoder never emits it). -/
def unescChar (c : Char) : Char :=
  if c = 'n' then '\n'
  else if c = 't' then '\t'
  else if c = 'r' then '\r'
  else if c = 'b' then Char.ofNat 8
  else if c = 'f' then Char.ofNat 12
  else c

/-- Parse the body of a JSON string after the opening quote; returns the
decoded characters and the input following the closing quote. -/
def parseStr : List Char → Option (List Char × List Char)
  | [] => none
  | c :: r =>
    if c = '"' then some ([], r)
    else if c = '\\' then
      match r with
      | [] => none
      | e :: r2 =>
        match parseStr r2 with
        | some (s, r3) => some (unescChar e :: s, r3)
        | none => none
    else
      match parseStr r with
      | some (s, r2) => some (c :: s, r2)
      | none => none

/-- Longest prefix of decimal digits. -/
def takeDigits : List Char → List Char × List Char
  | [] => ([], [])
  | c :: r =>
    if c.isDigit then
      let (ds, rest) := takeDigits r
      (c :: ds, rest)
    else ([], c :: r)

/-- Value of a digit string, most significant first. -/
def digitsToNat (ds : List Char) : Nat :=
  ds.foldl (fun a c => 10 * a + (c.toNat - 48)) 0

/-- Parse a nonempty run of decimal digits. -/
def parseNatL (cs : List Char) : Option (Nat × List Char) :=
  match takeDigits cs with
  | ([], _) => none
  | (ds, rest) => some (digitsToNat ds, rest)

mutual

/-- Recursive-descent parser for the modeled JSON subset (`json.loads`).
The fuel argument only bounds nesting; `loads` supplies enough for any
input. -/
def parseVal : Nat → List Char → Option (Json × List Char)
  | 0, _ => none
  | fuel + 1, cs0 =>
    match skipWs cs0 with
    | [] => none
    | c :: r =>
      if c = 'n' then
        if r.take 3 = ['u', 'l', 'l'] then some (.null, r.drop 3) else none
      else if c = 't' then
        if r.take 3 = ['r', 'u', 'e'] then some (.bool true, r.drop 3) else none
      else if c = 'f' then
        if r.take 4 = ['a', 'l', 's', 'e'] then some (.bool false, r.drop 4) else none
      else if c = '"' then
        match parseStr r with
        | some (s, r1) => some (.str (String.mk s), r1)
        | none => none
      else if c = '-' then
        match parseNatL r with
        | some (n, r1) => some (.num (-(n : Int)), r1)
        | none => none
      else if c.isDigit then
        match parseNatL (c :: r) with
        | some (n, r1) => some (.num (n : Int), r1)
        | none => none
      else if c = '[' then
        if (skipWs r).head? = some ']' then some (.arr [], (skipWs r).tail)
        else
          match parseArrTail fuel r with
          | some (xs, r1) => some (.arr xs, r1)
          | none => none
      else if c = '{' then
        if (skipWs r).head? = some '}' then some (.obj [], (skipWs r).tail)
        else
          match parseObjTail fuel r with
          | some (kvs, r1) => some (.obj kvs, r1)
          | none => none
      else none

/-- Items of a nonempty JSON array, consuming the closing bracket. -/
def parseArrTail : Nat → List Char → Option (List Json × List Char)
  | 0, _ => none
  | fuel + 1, cs =>
    match parseVal fuel cs with
    | none => none
    | some (v, r) =>
      match skipWs r with
      | [] => none
      | c :: r2 =>
        if c = ',' then
          match parseArrTail fuel r2 with
          | some (vs, r3) => some (v :: vs, r3)
          | none => none
        else if c = ']' then some ([v], r2)
        else none

/-- Members of a nonempty JSON object, consuming the closing brace. -/
def parseObjTail : Nat → List Char → Option (List (String × Json) × List Char)
  | 0, _ => none
  | fuel + 1, cs =>
    match skipWs cs with
    | [] => none
    | c :: r =>
      if c = '"' then
        match parseStr r with
        | none => none
        | some (k, r1) =>
          match skipWs r1 with
          | [] => none
          | c1 :: r2 =>
            if c1 = ':' then
              match parseVal fuel r2 with
              | none => none
              | some (v, r3) =>
                match skipWs r3 with
                | [] => none
                | c2 :: r4 =>
                  if c2 = ',' then
                    match parseObjTail fuel r4 with
                    | some (kvs, r5) => some ((String.mk k, v) :: kvs, r5)
                    | none => none
                  else if c2 = '}' then some ([(String.mk k, v)], r4)
                  else none
            else none
      else none

end

/-- `json.loads`: parse a whole document, rejecting trailing garbage. -/
def loadsChars (cs : List Char) : Option Json :=
  match parseVal (cs.length + 1) cs with
  | some (j, r) => if skipWs r = [] then some j else none
  | none => none

/-- `json.loads` on a string. -/
def loads (s : String) : Option Json := loadsChars s.data

/-- A Redis sorted set: members (serialized task payloads) with scores.
`zadd` from an empty set keeps members unique; list order is insertion
order and carries no Redis meaning, ranking is by `entryLt`. -/
abbrev ZSet : Type := List (String × Int)

/-- Byte-wise (for the ASCII repertoire: code-point-wise) lexicographic
order, the order Redis uses on members with equal scores. -/
def lexLt : List Char → List Char → Bool
  | [], [] => false
  | [], _ :: _ => true
  | _ :: _, [] => false
  | a :: as, b :: bs => if a < b then true else if b < a then false else lexLt as bs

/-- Redis member order. -/
def memLt (a b : String) : Bool := lexLt a.data b.data

/-- The sorted-set ranking: by score, ties by member lexicographic
order. -/
def entryLt (a b : String × Int) : Bool :=
  a.2 < b.2 ∨ (a.2 = b.2 ∧ memLt a.1 b.1)

/-- `ZADD key {member: score}`: re-scores the member when it is already
present, inserts it otherwise. -/
def zadd (z : ZSet) (member : String) (score : Int) : ZSet :=
  if (List.any z fun e => e.1 = member) then
    List.map (fun e => if e.1 = member then (member, score) else e) z
  else List.append z [(member, score)]

/-- The entry `ZPOPMIN` would return: lowest score, ties broken by
lexicographically smallest member. -/
def zminEntry : ZSet → Option (String × Int)
  | [] => none
  | e :: rest =>
    match zminEntry rest with
    | none => some e
    | some m => some (if entryLt m e then m else e)

/-- Removal of one entry, as `ZPOPMIN` removes the entry it returns. -/
def zremove : ZSet → (String × Int) → ZSet
  | [], _ => []
  | x :: rest, e => if x = e then rest else x :: zremove rest e

/-- Per-task status hash `task:<id>` (fields `status`, `updated_at`,
`result`); `updated_at` is the event-loop time, modeled as an abstract
tick.  The 3600 s `expire` set alongside is not modeled. -/
structure TaskHash where
  status : String
  updated_at : Nat
  result : Option String

/-- The Redis keyspace as the service uses it: one sorted set per
`queue:<name>` key, one status hash per `task:<id>` key, plus the
event-loop clock. -/
structure RedisState where
  queues : String → ZSet
  tasks : String → Option TaskHash
  now : Nat

/-- A Redis server with no keys. -/
def initialState : RedisState :=
  { queues := fun _ => [], tasks := fun _ => none, now := 0 }

/-- Python truthiness of a JSON value (`if result:` / `if not task_data:`). -/
def truthy : Json → Bool
  | .null => false
  | .bool b => b
  | .num n => n ≠ 0
  | .str s => s.data ≠ []
  | .arr xs => !xs.isEmpty
  | .obj kvs => !kvs.isEmpty

/-- `dict.get(key)` on an object payload (`None` i.e. `none` when the key
is absent; the service only calls it on dict payloads). -/
def jget (j : Json) (k : String) : Option Json :=
  match j with
  | .obj kvs => (kvs.find? fun kv => kv.1 = k).map (fun kv => kv.2)
  | _ => none

/-- `RedisService.enqueue_task`: `zadd(f"queue:{queue_name}",
{json.dumps(task_data): -priority})`.  `fail` selects the except-branch
(the wrapped call raised; the error is logged and `False` returned). -/
def enqueue_task (fail : Bool) (st : RedisState) (queue_name : String)
    (task_data : Json) (priority : Int) : RedisState × Bool :=
  if fail then (st, false)
  else
    ({ st with
        queues := fun n =>
          if n = queue_name then zadd (st.queues queue_name) (dumps task_data) (-priority)
          else st.queues n },
      true)

/-- `RedisService.dequeue_task`: `zpopmin` then `json.loads` of the popped
member.  `fail` selects the except-branch (returns `None`). -/
def dequeue_task (fail : Bool) (st : RedisState) (queue_name : String) :
    RedisState × Option Json :=
  if fail then (st, none)
  else
    match zminEntry (st.queues queue_name) with
    | none => (st, none)
    | some e =>
      ({ st with
          queues := fun n =>
            if n = queue_name then zremove (st.queues queue_name) e else st.queues n },
        loads e.1)

/-- `RedisService.get_queue_size`: `zcard` (0 on a store error). -/
def get_queue_size (fail : Bool) (st : RedisState) (queue_name : String) : Int :=
  if fail then 0 else ((st.queues queue_name).length : Int)

/-- `RedisService.set_task_status`: `hset` of `status` and `updated_at`,
plus `result` only when the result argument is truthy; `hset` updates the
given fields and keeps absent ones, so an existing `result` field
survives a later status-only write.  `fail` selects the except-branch
(error swallowed, nothing written). -/
def set_task_status (fail : Bool) (st : RedisState) (task_id : String)
    (status : String) (result : Option Json) : RedisState :=
  if fail then st
  else
    let old := st.tasks task_id
    let newResult : Option String :=
      match result with
      | some r => if truthy r then some (dumps r) else old.bind TaskHash.result
      | none => old.bind TaskHash.result
    { st with
        tasks := fun t =>
          if t = task_id then some ⟨status, st.now, newResult⟩ else st.tasks t }

/-- `RedisService.get_task_status` (parsed `result` field omitted: claims
inspect the raw hash). -/
def get_task_status (fail : Bool) (st : RedisState) (task_id : String) : Option TaskHash :=
  if fail then none else st.tasks task_id

/-- `ProcessingStatus` values (`schemas.py`; the `str`-mixin enum members
are stored by value). -/
def statusPending : String := "pending"

/-- `ProcessingStatus.PROCESSING`. -/
def statusProcessing : String := "processing"

/-- `ProcessingStatus.COMPLETED`. -/
def statusCompleted : String := "completed"

/-- `ProcessingStatus.FAILED`. -/
def statusFailed : String := "failed"

/-- `TaskType` enum (`schemas.py`). -/
inductive TaskType where
  | step_detection
  | ocr_extraction
  | content_generation
  | voice_synthesis
  | image_analysis
deriving DecidableEq

/-- `TaskType(value)`: `some` member on a registered value, `none` where
the Python constructor raises `ValueError`. -/
def TaskType.ofString? (s : String) : Option TaskType :=
  if s = "step_detection" then some .step_detection
  else if s = "ocr_extraction" then some .ocr_extraction
  else if s = "content_generation" then some .content_generation
  else if s = "voice_synthesis" then some .voice_synthesis
  else if s = "image_analysis" then some .image_analysis
  else none

/-- The text a value contributes to an f-string key such as
`f"task:{task_id}"`: the string itself for strings (the only case the
repository's callers produce; routes always set a uuid string),
`str()`-like renderings otherwise. -/
def taskKey : Option Json → String
  | some (.str s) => s
  | some j => dumps j
  | none => "None"

/-- `task_data.get("priority", 1)` as the integer handed to
`enqueue_task`.  A non-numeric priority value, which in Python would
raise a `TypeError` inside `enqueue_task` when computing `-priority`,
is outside the modeled subset. -/
def getPriority (td : Json) : Int :=
  match jget td "priority" with
  | some (.num n) => n
  | _ => 1

/-- `QueueService.submit_task`.  Returns the possibly-mutated store and
either the task id or the message of the raised error (`ValueError` for
missing fields or an unregistered task type).  Validation happens before
any write: the error paths leave the store untouched.  The dead
`RuntimeError` branch (enqueue returning `False`) is unreachable with a
healthy store and is modeled with `fail := false`. -/
def submit_task (st : RedisState) (task_data : Json) : RedisState × Except String String :=
  let task_type := jget task_data "task_type"
  let task_id := jget task_data "task_id"
  let priority := getPriority task_data
  if !(task_type.elim false truthy) ∨ !(task_id.elim false truthy) then
    (st, .error "Task must have task_type and task_id")
  else
    match task_type with
    | some (.str s) =>
      match TaskType.ofString? s with
      | none => (st, .error ("Invalid task type: " ++ s))
      | some _ =>
        let st1 := set_task_status false st (taskKey task_id) statusPending none
        let st2 := (enqueue_task false st1 s task_data priority).1
        (st2, .ok (taskKey task_id))
    | _ => (st, .error "Invalid task type: not a string")
  
/-- `settings.PROCESSING_TIMEOUT` (seconds; the spec's time-units). -/
def PROCESSING_TIMEOUT : Nat := 300

/-- The behavior of one processor invocation: it would return a result
or raise after running for the given duration. -/
inductive HandlerRun where
  | returns (r : Json) (duration : Nat)
  | raises (msg : String) (duration : Nat)

/-- Duration the processor would run unconstrained. -/
def HandlerRun.duration : HandlerRun → Nat
  | .returns _ d => d
  | .raises _ d => d

/-- Outcome observed by `_process_task` through `asyncio.wait_for`. -/
inductive RunResult where
  | ok (r : Json)
  | timedOut
  | raised (msg : String)

/-- `asyncio.wait_for(handler(task_data), timeout)`: the handler's own
outcome if it finishes within the deadline, `TimeoutError` at the
deadline otherwise.  The second component is the elapsed wall time. -/
def waitFor (run : HandlerRun) (timeout : Nat) : RunResult × Nat :=
  match run with
  | .returns r d => if d ≤ timeout then (.ok r, d) else (.timedOut, timeout)
  | .raises m d => if d ≤ timeout then (.raised m, d) else (.timedOut, timeout)

/-- `QueueService._process_task`.  Every branch ends in a terminal
`set_task_status`; `asyncio.TimeoutError` and every other exception are
caught inside, so the call never propagates an error to `_worker`.  An
unregistered task type makes `TaskType(task_type)` raise `ValueError`,
caught by the generic handler (Python's message quotes the value). -/
def process_task (st : RedisState) (worker_id : String) (task_data : Json)
    (run : HandlerRun) : RedisState :=
  let task_id := taskKey (jget task_data "task_id")
  let st1 := set_task_status false st task_id statusProcessing none
  match jget task_data "task_type" with
  | some (.str s) =>
    match TaskType.ofString? s with
    | some _ =>
      match waitFor run PROCESSING_TIMEOUT with
      | (.ok r, d) =>
        set_task_status false st1 task_id statusCompleted
          (some (.obj [("result", r), ("processing_time", .num (Int.ofNat d)),
                       ("worker_id", .str worker_id)]))
      | (.timedOut, _) =>
        set_task_status false st1 task_id statusFailed
          (some (.obj [("error", .str "Task timed out")]))
      | (.raised m, _) =>
        set_task_status false st1 task_id statusFailed
          (some (.obj [("error", .str m)]))
    | none =>
      set_task_status false st1 task_id statusFailed
        (some (.obj [("error", .str (s ++ " is not a valid TaskType"))]))
  | _ =>
    set_task_status false st1 task_id statusFailed
      (some (.obj [("error", .str "task_type is not a valid TaskType")]))

/-- What one iteration of the `_worker` loop did before continuing. -/
inductive WorkerAction where
  | idle
  | processed
  | backoff
deriving DecidableEq

/-- One iteration of `QueueService._worker` with `self.running` still
true.  `idle` is the 1-second empty-queue wait, `processed` a completed
`_process_task` call, `backoff` the generic except-branch with its
5-second `asyncio.sleep(5)`.  A store error during `dequeue_task` is
swallowed inside `RedisService` (the call returns `None`), so it lands
in the `idle` branch; `backoff` is reached only when `task_data.get`
raises before the try-block of `_process_task`, i.e. for a truthy
non-dict payload.  No branch exits the loop: the iteration always
produces a successor state. -/
def workerStep (dequeueFail : Bool) (st : RedisState) (queue_name worker_id : String)
    (run : HandlerRun) : RedisState × WorkerAction :=
  let (st1, td?) := dequeue_task dequeueFail st queue_name
  match td? with
  | none => (st1, .idle)
  | some td =>
    if !truthy td then (st1, .idle)
    else
      match td with
      | .obj _ => (process_task st1 worker_id td run, .processed)
      | _ => (st1, .backoff)

/-- Fold `enqueue_task` over a list of payload-priority pairs (the
submission order of a test scenario). -/
def enqueueAll (st : RedisState) (queue_name : String) : List (Json × Int) → RedisState
  | [] => st
  | (p, pr) :: rest =>
    enqueueAll (enqueue_task false st queue_name p pr).1 queue_name rest

/-- `n` successive `dequeue_task` calls on one queue — the serialization
of `n` concurrent callers, justified by `ZPOPMIN` executing atomically
on the Redis server.  Collects the returned payloads; stops at the first
empty (or undecodable) reply, as each worker then sleeps. -/
def popNState (st : RedisState) (queue_name : String) : Nat → List Json × RedisState
  | 0 => ([], st)
  | n + 1 =>
    match dequeue_task false st queue_name with
    | (st1, none) => ([], st1)
    | (st1, some p) =>
      let (rest, st2) := popNState st1 queue_name n
      (p :: rest, st2)

mutual

/-- Parser fuel needed for a value (for the roundtrip induction). -/
def sizeJ : Json → Nat
  | .arr xs => 1 + sizeList xs
  | .obj kvs => 1 + sizeObj kvs
  | _ => 1

/-- Parser fuel needed for the items of an array. -/
def sizeList : List Json → Nat
  | [] => 0
  | x :: xs => 1 + sizeJ x + sizeList xs

/-- Parser fuel needed for the members of an object. -/
def sizeObj : List (String × Json) → Nat
  | [] => 0
  | (_, v) :: kvs => 1 + sizeJ v + sizeObj kvs

end

/-- The continuation after a serialized number never starts with a digit
(in serialized JSON it is a separator, a closing bracket, or the end). -/
def noDigitHead : List Char → Bool
  | [] => true
  | c :: _ => !c.isDigit

/-- The sequence of entries `n` successive `ZPOPMIN` calls remove from a
sorted set (the store-level shadow of `popNState`). -/
def popList : Nat → ZSet → List (String × Int)
  | 0, _ => []
  | n + 1, z =>
    match zminEntry z with
    | none => []
    | some e => e :: popList n (zremove z e)

/-- A concrete well-formed task payload, as `routes.py` builds them. -/
def exTask : Json :=
  .obj [("task_id", .str "t1"), ("task_type", .str "ocr_extraction"), ("priority", .num 5)]

/-- The same task with an out-of-range priority. -/
def exTask99 : Json :=
  .obj [("task_id", .str "t2"), ("task_type", .str "ocr_extraction"), ("priority", .num 99)]

/-- A concrete processor result. -/
def exResult : Json := .obj [("ok", .bool true)]

/-- Payload submitted first in the tie-break scenario; serializes to a
lexicographically larger member than `exSecond`. -/
def exFirst : Json := .obj [("task_id", .str "b")]

/-- Payload submitted second in the tie-break scenario. -/
def exSecond : Json := .obj [("task_id", .str "a")]

/-- A submission with an unregistered task type. -/
def exBadType : Json := .obj [("task_id", .str "t9"), ("task_type", .str "qqq")]

/-- Scenario payload submitted with priority 5. -/
def exP5 : Json := .obj [("p", .num 5)]

/-- Scenario payload submitted with priority 9. -/
def exP9 : Json := .obj [("p", .num 9)]

/-- Scenario payload submitted with priority 1. -/
def exP1 : Json := .obj [("p", .num 1)]

/-- Dispatch tokens of the parser: every serialized value starts with one. -/
def leadTok (c : Char) : Prop :=
  c = 'n' ∨ c = 't' ∨ c = 'f' ∨ c = '"' ∨ c = '-' ∨ c.isDigit = true ∨ c = '[' ∨ c = '{'

theorem digitChar_isDigit {d : Nat} (h : d < 10) : (digitChar d).isDigit = true := by
  interval_cases d <;> decide

theorem digitChar_toNat {d : Nat} (h : d < 10) : (digitChar d).toNat = 48 + d := by
  interval_cases d <;> decide

theorem digitsToNat_append_single (xs : List Char) (c : Char) :
    digitsToNat (xs ++ [c]) = 10 * digitsToNat xs + (c.toNat - 48) := by
  simp [digitsToNat, List.foldl_append]

theorem natCharsAux_spec :
    ∀ fuel n, n < fuel →
      natCharsAux fuel n ≠ [] ∧ (∀ c ∈ natCharsAux fuel n, c.isDigit = true) ∧
        digitsToNat (natCharsAux fuel n) = n := by
  intro fuel
  induction fuel with
  | zero => omega
  | succ fuel ih =>
    intro n hn
    by_cases h10 : n < 10
    · refine ⟨by simp [natCharsAux, h10], ?_, ?_⟩
      · intro c hc
        simp [natCharsAux, h10] at hc
        subst hc
        exact digitChar_isDigit h10
      · simp [natCharsAux, h10, digitsToNat, digitChar_toNat h10]
    · have hdiv : n / 10 < fuel := by omega
      obtain ⟨hne, hdig, hval⟩ := ih (n / 10) hdiv
      refine ⟨by simp [natCharsAux, h10], ?_, ?_⟩
      · intro c hc
        simp only [natCharsAux, if_neg h10, List.mem_append, List.mem_singleton] at hc
        rcases hc with hc | hc
        · exact hdig c hc
        · subst hc
          exact digitChar_isDigit (by omega)
      · have hm : n % 10 < 10 := by omega
        simp only [natCharsAux, if_neg h10, digitsToNat_append_single, hval,
          digitChar_toNat hm]
        omega

theorem natChars_spec (n : Nat) :
    natChars n ≠ [] ∧ (∀ c ∈ natChars n, c.isDigit = true) ∧ digitsToNat (natChars n) = n :=
  natCharsAux_spec (n + 1) n (by omega)

theorem takeDigits_append (ds rest : List Char) (hds : ∀ c ∈ ds, c.isDigit = true)
    (hrest : noDigitHead rest = true) : takeDigits (ds ++ rest) = (ds, rest) := by
  induction ds with
  | nil =>
    cases rest with
    | nil => rfl
    | cons c r =>
      simp only [noDigitHead, Bool.not_eq_true'] at hrest
      simp [takeDigits, hrest]
  | cons d ds ihd =>
    have hd := hds d (by simp)
    simp only [List.cons_append, takeDigits, hd, if_pos, List.append_eq]
    rw [ihd fun c hc => hds c (by simp [hc])]

theorem parseNatL_natChars (n : Nat) (rest : List Char) (hrest : noDigitHead rest = true) :
    parseNatL (natChars n ++ rest) = some (n, rest) := by
  obtain ⟨hne, hdig, hval⟩ := natChars_spec n
  rw [parseNatL, takeDigits_append _ _ hdig hrest]
  cases h : natChars n with
  | nil => exact absurd h hne
  | cons c cs => simp only [← h, hval]

theorem unescChar_escaped {c : Char} (h : c = '"' ∨ c = '\\') : unescChar c = c := by
  rcases h with h | h <;> subst h <;> decide

theorem escChars_cons (c : Char) (cs : List Char) :
    escChars (c :: cs) = escChar c ++ escChars cs := rfl

theorem parseStr_cons (c : Char) (r : List Char) :
    parseStr (c :: r) =
      if c = '"' then some ([], r)
      else if c = '\\' then
        match r with
        | [] => none
        | e :: r2 =>
          match parseStr r2 with
          | some (s, r3) => some (unescChar e :: s, r3)
          | none => none
      else
        match parseStr r with
        | some (s, r2) => some (c :: s, r2)
        | none => none := by
  rw [parseStr.eq_def]

theorem parseStr_escChars (cs rest : List Char) :
    parseStr (escChars cs ++ '"' :: rest) = some (cs, rest) := by
  induction cs with
  | nil =>
    show parseStr ('"' :: rest) = some ([], rest)
    rw [parseStr_cons, if_pos rfl]
  | cons c cs ihc =>
    by_cases hc : c = '"' ∨ c = '\\'
    · have he : escChar c = ['\\', c] := by rw [escChar, if_pos hc]
      rw [escChars_cons, he]
      show parseStr ('\\' :: c :: (escChars cs ++ '"' :: rest)) = _
      rw [parseStr_cons, if_neg (by decide), if_pos rfl]
      show (match parseStr (escChars cs ++ '"' :: rest) with
        | some (s, r3) => some (unescChar c :: s, r3)
        | none => none) = _
      rw [ihc, unescChar_escaped hc]
    · push_neg at hc
      have he : escChar c = [c] := by
        rw [escChar, if_neg (by simp [hc.1, hc.2])]
      rw [escChars_cons, he]
      show parseStr (c :: (escChars cs ++ '"' :: rest)) = _
      rw [parseStr_cons, if_neg hc.1, if_neg hc.2, ihc]

theorem skipWs_not_ws {c : Char} (r : List Char) (h : isWs c = false) :
    skipWs (c :: r) = c :: r := by
  simp [skipWs, h]

theorem isWs_eq_true {c : Char} (h : isWs c = true) : c ∈ [' ', '\t', '\n', '\r'] := by
  have h' := h
  simp only [isWs, decide_eq_true_eq] at h'
  simpa using h'

theorem isDigit_ne {c : Char} (h : c.isDigit = true) :
    c ≠ 'n' ∧ c ≠ 't' ∧ c ≠ 'f' ∧ c ≠ '"' ∧ c ≠ '-' ∧ c ≠ '[' ∧ c ≠ '{' ∧
      c ≠ ']' ∧ c ≠ '}' ∧ c ≠ ',' ∧ c ≠ ':' ∧ isWs c = false := by
  refine ⟨?_, ?_, ?_, ?_, ?_, ?_, ?_, ?_, ?_, ?_, ?_, ?_⟩
  all_goals first
    | (intro heq; subst heq; exact absurd h (by decide))
    | (cases hw : isWs c with
       | false => rfl
       | true =>
         exfalso
         have hm := isWs_eq_true hw
         simp only [List.mem_cons, List.not_mem_nil, or_false] at hm
         rcases hm with h1 | h1 | h1 | h1 <;> subst h1 <;>
           exact absurd h (by decide))

theorem skipWs_space (cs : List Char) : skipWs (' ' :: cs) = skipWs cs := by
  simp [skipWs, isWs]

theorem parseVal_cons (fuel : Nat) (c : Char) (r : List Char) (hc : isWs c = false) :
    parseVal (fuel + 1) (c :: r) =
      (if c = 'n' then
        if r.take 3 = ['u', 'l', 'l'] then some (.null, r.drop 3) else none
      else if c = 't' then
        if r.take 3 = ['r', 'u', 'e'] then some (.bool true, r.drop 3) else none
      else if c = 'f' then
        if r.take 4 = ['a', 'l', 's', 'e'] then some (.bool false, r.drop 4) else none
      else if c = '"' then
        match parseStr r with
        | some (s, r1) => some (.str (String.mk s), r1)
        | none => none
      else if c = '-' then
        match parseNatL r with
        | some (n, r1) => some (.num (-(n : Int)), r1)
        | none => none
      else if c.isDigit then
        match parseNatL (c :: r) with
        | some (n, r1) => some (.num (n : Int), r1)
        | none => none
      else if c = '[' then
        if (skipWs r).head? = some ']' then some (.arr [], (skipWs r).tail)
        else
          match parseArrTail fuel r with
          | some (xs, r1) => some (.arr xs, r1)
          | none => none
      else if c = '{' then
        if (skipWs r).head? = some '}' then some (.obj [], (skipWs r).tail)
        else
          match parseObjTail fuel r with
          | some (kvs, r1) => some (.obj kvs, r1)
          | none => none
      else none) := by
  rw [parseVal.eq_def]
  simp only [skipWs_not_ws r hc]

theorem parseVal_ws (fuel : Nat) (cs : List Char) :
    parseVal fuel (' ' :: cs) = parseVal fuel cs := by
  cases fuel with
  | zero => rfl
  | succ fuel =>
    rw [parseVal.eq_def, parseVal.eq_def]
    simp only [skipWs_space]

theorem parseArrTail_ws (fuel : Nat) (cs : List Char) :
    parseArrTail fuel (' ' :: cs) = parseArrTail fuel cs := by
  cases fuel with
  | zero => rfl
  | succ fuel =>
    rw [parseArrTail.eq_def, parseArrTail.eq_def]
    simp only [parseVal_ws]

theorem parseObjTail_ws (fuel : Nat) (cs : List Char) :
    parseObjTail fuel (' ' :: cs) = parseObjTail fuel cs := by
  cases fuel with
  | zero => rfl
  | succ fuel =>
    rw [parseObjTail.eq_def, parseObjTail.eq_def]
    simp only [skipWs_space]

theorem parseArrTail_succ (fuel : Nat) (cs : List Char) :
    parseArrTail (fuel + 1) cs =
      match parseVal fuel cs with
      | none => none
      | some (v, r) =>
        match skipWs r with
        | [] => none
        | c :: r2 =>
          if c = ',' then
            match parseArrTail fuel r2 with
            | some (vs, r3) => some (v :: vs, r3)
            | none => none
          else if c = ']' then some ([v], r2)
          else none := by
  rw [parseArrTail.eq_def]

theorem parseObjTail_succ (fuel : Nat) (cs : List Char) :
    parseObjTail (fuel + 1) cs =
      match skipWs cs with
      | [] => none
      | c :: r =>
        if c = '"' then
          match parseStr r with
          | none => none
          | some (k, r1) =>
            match skipWs r1 with
            | [] => none
            | c1 :: r2 =>
              if c1 = ':' then
                match parseVal fuel r2 with
                | none => none
                | some (v, r3) =>
                  match skipWs r3 with
                  | [] => none
                  | c2 :: r4 =>
                    if c2 = ',' then
                      match parseObjTail fuel r4 with
                      | some (kvs, r5) => some ((String.mk k, v) :: kvs, r5)
                      | none => none
                    else if c2 = '}' then some ([(String.mk k, v)], r4)
                    else none
              else none
        else none := by
  rw [parseObjTail.eq_def]

theorem leadTok_facts {c : Char} (h : leadTok c) :
    isWs c = false ∧ c ≠ ']' ∧ c ≠ '}' := by
  rcases h with rfl | rfl | rfl | rfl | rfl | hd | rfl | rfl
  case inr.inr.inr.inr.inr.inl =>
    obtain ⟨-, -, -, -, -, -, -, h1, h2, -, -, hws⟩ := isDigit_ne hd
    exact ⟨hws, h1, h2⟩
  all_goals exact ⟨by decide, by decide, by decide⟩

theorem dumpsL_head (j : Json) : ∃ c r, dumpsL j = c :: r ∧ leadTok c := by
  rcases j with - | b | n | s | xs | kvs
  case num =>
    rcases hn : decide (n < 0) with - | -
    · obtain ⟨hne, hdig, -⟩ := natChars_spec n.toNat
      rcases hx : natChars n.toNat with - | ⟨c, ds⟩
      · exact absurd hx hne
      · have hdc := hdig c (hx ▸ List.mem_cons_self c ds)
        refine ⟨c, ds, ?_, by simp [leadTok, hdc]⟩
        have hn' : ¬ n < 0 := by simpa using hn
        simp [dumpsL, intChars, hn', hx]
      -- chosen by the sign test in `intChars`
    · have hn' : n < 0 := by simpa using hn
      refine ⟨'-', natChars (-n).toNat, by simp [dumpsL, intChars, hn'], ?_⟩
      simp [leadTok]
  case bool => rcases b with - | - <;> exact ⟨_, _, rfl, by simp [leadTok]⟩
  all_goals exact ⟨_, _, rfl, by simp [leadTok]⟩

theorem dumpsArr_cons_eq (x : Json) (xs : List Json) :
    ∃ t, dumpsArr (x :: xs) = dumpsL x ++ t := by
  cases xs with
  | nil => exact ⟨[']'], rfl⟩
  | cons y ys => exact ⟨',' :: ' ' :: dumpsArr (y :: ys), rfl⟩

theorem dumpsObj_cons_eq (k : String) (v : Json) (kvs : List (String × Json)) :
    ∃ t, dumpsObj ((k, v) :: kvs) = encString k ++ t := by
  cases kvs with
  | nil => exact ⟨':' :: ' ' :: (dumpsL v ++ ['}']), rfl⟩
  | cons kv kvs' => exact ⟨':' :: ' ' :: (dumpsL v ++ ',' :: ' ' :: dumpsObj (kv :: kvs')), rfl⟩

theorem sizeJ_pos (j : Json) : 1 ≤ sizeJ j := by
  cases j <;> simp [sizeJ]

theorem sizeList_pos (xs : List Json) (h : xs ≠ []) : 1 ≤ sizeList xs := by
  cases xs with
  | nil => exact absurd rfl h
  | cons x xs => simp [sizeList]; omega

theorem sizeObj_pos (kvs : List (String × Json)) (h : kvs ≠ []) : 1 ≤ sizeObj kvs := by
  cases kvs with
  | nil => exact absurd rfl h
  | cons kv kvs => cases kv; simp [sizeObj]; omega

theorem parse_dumps (fuel : Nat) :
    (∀ j rest, sizeJ j ≤ fuel → noDigitHead rest = true →
      parseVal fuel (dumpsL j ++ rest) = some (j, rest)) ∧
    (∀ xs rest, xs ≠ [] → sizeList xs ≤ fuel →
      parseArrTail fuel (dumpsArr xs ++ rest) = some (xs, rest)) ∧
    (∀ kvs rest, kvs ≠ [] → sizeObj kvs ≤ fuel →
      parseObjTail fuel (dumpsObj kvs ++ rest) = some (kvs, rest)) := by
  induction fuel with
  | zero =>
    refine ⟨fun j rest hsz _ => absurd hsz ?_, fun xs rest hne hsz => absurd hsz ?_,
      fun kvs rest hne hsz => absurd hsz ?_⟩
    · have := sizeJ_pos j; omega
    · have := sizeList_pos xs hne; omega
    · have := sizeObj_pos kvs hne; omega
  | succ fuel ih =>
    obtain ⟨ihV, ihA, ihO⟩ := ih
    refine ⟨?_, ?_, ?_⟩
    · intro j rest hsz hrest
      cases j with
      | null =>
        rw [show dumpsL Json.null ++ rest = 'n' :: 'u' :: 'l' :: 'l' :: rest from rfl,
          parseVal_cons fuel 'n' _ (by decide), if_pos rfl,
          if_pos (show List.take 3 ('u' :: 'l' :: 'l' :: rest) = ['u', 'l', 'l'] from rfl)]
        exact rfl
      | bool b =>
        cases b with
        | true =>
          rw [show dumpsL (Json.bool true) ++ rest = 't' :: 'r' :: 'u' :: 'e' :: rest from rfl,
            parseVal_cons fuel 't' _ (by decide), if_neg (by decide), if_pos rfl,
            if_pos (show List.take 3 ('r' :: 'u' :: 'e' :: rest) = ['r', 'u', 'e'] from rfl)]
          exact rfl
        | false =>
          rw [show dumpsL (Json.bool false) ++ rest
                = 'f' :: 'a' :: 'l' :: 's' :: 'e' :: rest from rfl,
            parseVal_cons fuel 'f' _ (by decide), if_neg (by decide), if_neg (by decide),
            if_pos rfl,
            if_pos (show List.take 4 ('a' :: 'l' :: 's' :: 'e' :: rest)
              = ['a', 'l', 's', 'e'] from rfl)]
          exact rfl
      | num n =>
        by_cases hn : n < 0
        · rw [show dumpsL (Json.num n) ++ rest = '-' :: (natChars (-n).toNat ++ rest) from by
              simp [dumpsL, intChars, hn],
            parseVal_cons fuel '-' _ (by decide), if_neg (by decide), if_neg (by decide),
            if_neg (by decide), if_neg (by decide), if_pos rfl,
            parseNatL_natChars _ _ hrest]
          dsimp only
          rw [Int.toNat_of_nonneg (by omega : (0 : Int) ≤ -n), neg_neg]
        · obtain ⟨hne, hdig, -⟩ := natChars_spec n.toNat
          cases hnc : natChars n.toNat with
          | nil => exact absurd hnc hne
          | cons c ds =>
            have hd : c.isDigit = true := hdig c (by rw [hnc]; simp)
            obtain ⟨g1, g2, g3, g4, g5, -, -, -, -, -, -, hws⟩ := isDigit_ne hd
            rw [show dumpsL (Json.num n) ++ rest = c :: (ds ++ rest) from by
                simp [dumpsL, intChars, hn, hnc],
              parseVal_cons fuel c _ hws, if_neg g1, if_neg g2, if_neg g3, if_neg g4,
              if_neg g5, if_pos hd,
              show c :: (ds ++ rest) = natChars n.toNat ++ rest from by rw [hnc]; rfl,
              parseNatL_natChars _ _ hrest]
            dsimp only
            rw [Int.toNat_of_nonneg (by omega : (0 : Int) ≤ n)]
      | str s =>
        rw [show dumpsL (Json.str s) ++ rest
              = '"' :: ((escChars s.data ++ ['"']) ++ rest) from rfl,
          parseVal_cons fuel '"' _ (by decide), if_neg (by decide), if_neg (by decide),
          if_neg (by decide), if_pos rfl,
          show (escChars s.data ++ ['"']) ++ rest = escChars s.data ++ '"' :: rest from by
            simp,
          parseStr_escChars]
      | arr xs =>
        cases xs with
        | nil =>
          rw [show dumpsL (Json.arr []) ++ rest = '[' :: (']' :: rest) from rfl,
            parseVal_cons fuel '[' _ (by decide), if_neg (by decide), if_neg (by decide),
            if_neg (by decide), if_neg (by decide), if_neg (by decide),
            if_neg (by decide), if_pos rfl, skipWs_not_ws _ (by decide)]
          exact rfl
        | cons x xs' =>
          obtain ⟨t, ht⟩ := dumpsArr_cons_eq x xs'
          obtain ⟨c, r', hx, hlead⟩ := dumpsL_head x
          obtain ⟨hws, hb1, hb2⟩ := leadTok_facts hlead
          have hr : dumpsArr (x :: xs') ++ rest = c :: (r' ++ (t ++ rest)) := by
            rw [ht, hx]; simp
          have hskip : skipWs (dumpsArr (x :: xs') ++ rest) = dumpsArr (x :: xs') ++ rest := by
            rw [hr]; exact skipWs_not_ws _ hws
          have hhead : (dumpsArr (x :: xs') ++ rest).head? = some c := by rw [hr]; rfl
          have hsz' : sizeList (x :: xs') ≤ fuel := by simp [sizeJ] at hsz; omega
          rw [show dumpsL (Json.arr (x :: xs')) ++ rest
                = '[' :: (dumpsArr (x :: xs') ++ rest) from rfl,
            parseVal_cons fuel '[' _ (by decide), if_neg (by decide), if_neg (by decide),
            if_neg (by decide), if_neg (by decide), if_neg (by decide),
            if_neg (by decide), if_pos rfl, hskip, hhead, if_neg (by simp [hb1]),
            ihA (x :: xs') rest (by simp) hsz']
      | obj kvs =>
        cases kvs with
        | nil =>
          rw [show dumpsL (Json.obj []) ++ rest = '{' :: ('}' :: rest) from rfl,
            parseVal_cons fuel '{' _ (by decide), if_neg (by decide), if_neg (by decide),
            if_neg (by decide), if_neg (by decide), if_neg (by decide),
            if_neg (by decide), if_neg (by decide), if_pos rfl, skipWs_not_ws _ (by decide)]
          exact rfl
        | cons kv kvs' =>
          obtain ⟨k, v⟩ := kv
          obtain ⟨t, ht⟩ := dumpsObj_cons_eq k v kvs'
          have hr : dumpsObj ((k, v) :: kvs') ++ rest
              = '"' :: ((escChars k.data ++ ['"']) ++ (t ++ rest)) := by
            rw [ht]; simp [encString]
          have hskip : skipWs (dumpsObj ((k, v) :: kvs') ++ rest)
              = dumpsObj ((k, v) :: kvs') ++ rest := by
            rw [hr]; exact skipWs_not_ws _ (by decide)
          have hhead : (dumpsObj ((k, v) :: kvs') ++ rest).head? = some '"' := by rw [hr]; rfl
          have hsz' : sizeObj ((k, v) :: kvs') ≤ fuel := by simp [sizeJ] at hsz; omega
          rw [show dumpsL (Json.obj ((k, v) :: kvs')) ++ rest
                = '{' :: (dumpsObj ((k, v) :: kvs') ++ rest) from rfl,
            parseVal_cons fuel '{' _ (by decide), if_neg (by decide), if_neg (by decide),
            if_neg (by decide), if_neg (by decide), if_neg (by decide),
            if_neg (by decide), if_neg (by decide), if_pos rfl, hskip, hhead,
            if_neg (by decide), ihO ((k, v) :: kvs') rest (by simp) hsz']
    · intro xs rest hne hsz
      cases xs with
      | nil => exact absurd rfl hne
      | cons x xs' =>
        have hposx := sizeJ_pos x
        cases xs' with
        | nil =>
          have hszx : sizeJ x ≤ fuel := by simp [sizeList] at hsz; omega
          rw [show dumpsArr [x] ++ rest = dumpsL x ++ (']' :: rest) from by
              simp [dumpsArr],
            parseArrTail_succ, ihV x (']' :: rest) hszx (by rfl)]
          exact rfl
        | cons y ys =>
          have hszx : sizeJ x ≤ fuel := by simp [sizeList] at hsz; omega
          have hszy : sizeList (y :: ys) ≤ fuel := by
            simp [sizeList] at hsz ⊢; omega
          rw [show dumpsArr (x :: y :: ys) ++ rest
                = dumpsL x ++ (',' :: ' ' :: (dumpsArr (y :: ys) ++ rest)) from by
              simp [dumpsArr],
            parseArrTail_succ, ihV x _ hszx (by rfl)]
          dsimp only
          rw [skipWs_not_ws _ (by decide)]
          dsimp only
          rw [if_pos rfl, parseArrTail_ws, ihA (y :: ys) rest (by simp) hszy]
    · intro kvs rest hne hsz
      cases kvs with
      | nil => exact absurd rfl hne
      | cons kv kvs' =>
        obtain ⟨k, v⟩ := kv
        have hposv := sizeJ_pos v
        cases kvs' with
        | nil =>
          have hszv : sizeJ v ≤ fuel := by simp [sizeObj] at hsz; omega
          rw [show dumpsObj [(k, v)] ++ rest
                = '"' :: (escChars k.data ++ '"' :: (':' :: ' ' :: (dumpsL v ++ ('}' :: rest)))) from by
              simp [dumpsObj, encString],
            parseObjTail_succ, skipWs_not_ws _ (by decide)]
          dsimp only
          rw [if_pos rfl, parseStr_escChars]
          dsimp only
          rw [skipWs_not_ws _ (by decide)]
          dsimp only
          rw [if_pos rfl, parseVal_ws, ihV v ('}' :: rest) hszv (by rfl)]
          exact rfl
        | cons kv2 kvs2 =>
          have hszv : sizeJ v ≤ fuel := by simp [sizeObj] at hsz; omega
          have hszr : sizeObj (kv2 :: kvs2) ≤ fuel := by
            simp [sizeObj] at hsz ⊢; omega
          rw [show dumpsObj ((k, v) :: kv2 :: kvs2) ++ rest
                = '"' :: (escChars k.data ++ '"' ::
                    (':' :: ' ' :: (dumpsL v ++ (',' :: ' ' :: (dumpsObj (kv2 :: kvs2) ++ rest))))) from by
              simp [dumpsObj, encString],
            parseObjTail_succ, skipWs_not_ws _ (by decide)]
          dsimp only
          rw [if_pos rfl, parseStr_escChars]
          dsimp only
          rw [skipWs_not_ws _ (by decide)]
          dsimp only
          rw [if_pos rfl, parseVal_ws, ihV v _ hszv (by rfl)]
          dsimp only
          rw [skipWs_not_ws _ (by decide)]
          dsimp only
          rw [if_pos rfl, parseObjTail_ws, ihO (kv2 :: kvs2) rest (by simp) hszr]

mutual

theorem sizeJ_le : ∀ j : Json, sizeJ j ≤ (dumpsL j).length
  | .null => by simp [sizeJ, dumpsL]
  | .bool b => by cases b <;> simp [sizeJ, dumpsL]
  | .num n => by
    simp only [sizeJ, dumpsL, intChars]
    by_cases hn : n < 0
    · simp [hn]
    · rw [if_neg hn]
      obtain ⟨hne, -, -⟩ := natChars_spec n.toNat
      cases h : natChars n.toNat with
      | nil => exact absurd h hne
      | cons c ds => simp [h]
  | .str s => by simp [sizeJ, dumpsL, encString]
  | .arr xs => by
    have := sizeList_le xs
    simp only [sizeJ, dumpsL, List.length_cons]
    omega
  | .obj kvs => by
    have := sizeObj_le kvs
    simp only [sizeJ, dumpsL, List.length_cons]
    omega

theorem sizeList_le : ∀ xs : List Json, sizeList xs ≤ (dumpsArr xs).length
  | [] => by simp [sizeList, dumpsArr]
  | [x] => by
    have := sizeJ_le x
    simp only [sizeList, dumpsArr, List.length_append, List.length_cons]
    simp
    omega
  | x :: y :: ys => by
    have h1 := sizeJ_le x
    have h2 := sizeList_le (y :: ys)
    simp only [sizeList] at h2
    simp only [sizeList, dumpsArr, List.length_append, List.length_cons]
    omega

theorem sizeObj_le : ∀ kvs : List (String × Json), sizeObj kvs ≤ (dumpsObj kvs).length
  | [] => by simp [sizeObj, dumpsObj]
  | [(k, v)] => by
    have := sizeJ_le v
    simp only [sizeObj, dumpsObj, List.length_append, List.length_cons]
    simp
    omega
  | (k, v) :: kv :: kvs => by
    have h1 := sizeJ_le v
    have h2 := sizeObj_le (kv :: kvs)
    simp only [sizeObj] at h2
    simp only [sizeObj, dumpsObj, List.length_append, List.length_cons]
    omega

end

theorem loads_dumps (j : Json) : loads (dumps j) = some j := by
  have h := (parse_dumps ((dumpsL j).length + 1)).1 j []
    (le_trans (sizeJ_le j) (by omega)) rfl
  rw [List.append_nil] at h
  show loadsChars (dumpsL j) = some j
  unfold loadsChars
  rw [h]
  exact rfl

theorem dumps_inj {a b : Json} (h : dumps a = dumps b) : a = b := by
  have ha := loads_dumps a
  rw [h, loads_dumps b] at ha
  injection ha with hba
  exact hba.symm

theorem stringDataInj {a b : String} (h : a.data = b.data) : a = b := by
  cases a
  cases b
  exact congrArg String.mk h

theorem lexLt_irrefl : ∀ l, lexLt l l = false
  | [] => rfl
  | c :: cs => by
    simp only [lexLt, if_neg (lt_irrefl c)]
    exact lexLt_irrefl cs

theorem lexLt_asymm : ∀ a b, lexLt a b = true → lexLt b a = false
  | [], [], h => by simp [lexLt] at h
  | [], c :: cs, _ => rfl
  | a :: as, [], h => by simp [lexLt] at h
  | a :: as, b :: bs, h => by
    simp only [lexLt] at h ⊢
    by_cases hab : a < b
    · rw [if_neg (lt_asymm hab), if_pos hab]
    · rw [if_neg hab] at h
      by_cases hba : b < a
      · rw [if_pos hba] at h
        exact absurd h (by simp)
      · rw [if_neg hba] at h
        rw [if_neg hba, if_neg hab]
        exact lexLt_asymm as bs h

theorem lexLt_neg_trans : ∀ a b c, lexLt a b = false → lexLt b c = false → lexLt a c = false
  | [], b, c, h1, h2 => by
    cases b with
    | nil =>
      cases c with
      | nil => rfl
      | cons c0 cs => exact h2
    | cons b0 bs => exact absurd h1 (by simp [lexLt])
  | a :: as, [], c, h1, h2 => by
    cases c with
    | nil => rfl
    | cons c0 cs => exact absurd h2 (by simp [lexLt])
  | a :: as, b :: bs, [], h1, h2 => rfl
  | a :: as, b :: bs, c :: cs, h1, h2 => by
    simp only [lexLt] at h1 h2 ⊢
    by_cases hab : a < b
    · rw [if_pos hab] at h1
      exact absurd h1 (by simp)
    · rw [if_neg hab] at h1
      by_cases hbc : b < c
      · rw [if_pos hbc] at h2
        exact absurd h2 (by simp)
      · rw [if_neg hbc] at h2
        by_cases hba : b < a
        · rw [if_pos hba] at h1
          by_cases hcb : c < b
          · have hca : c < a := lt_trans hcb hba
            rw [if_neg (lt_asymm hca), if_pos hca]
          · have hbc' : b = c := le_antisymm (not_lt.mp hcb) (not_lt.mp hbc)
            subst hbc'
            rw [if_neg hab, if_pos hba]
        · have hab' : a = b := le_antisymm (not_lt.mp hba) (not_lt.mp hab)
          subst hab'
          rw [if_neg hba] at h1
          by_cases hca : c < a
          · rw [if_neg (lt_asymm hca), if_pos hca]
          · rw [if_neg hca] at h2
            rw [if_neg hbc, if_neg hca]
            exact lexLt_neg_trans as bs cs h1 h2
  termination_by a _ _ _ _ => a.length

theorem lexLt_total_eq : ∀ a b, lexLt a b = false → lexLt b a = false → a = b
  | [], [], _, _ => rfl
  | [], b :: bs, h1, _ => absurd h1 (by simp [lexLt])
  | a :: as, [], _, h2 => absurd h2 (by simp [lexLt])
  | a :: as, b :: bs, h1, h2 => by
    simp only [lexLt] at h1 h2
    by_cases hab : a < b
    · rw [if_pos hab] at h1
      exact absurd h1 (by simp)
    · rw [if_neg hab] at h1
      by_cases hba : b < a
      · rw [if_pos hba] at h2
        exact absurd h2 (by simp)
      · rw [if_neg hba] at h1
        rw [if_neg hba, if_neg hab] at h2
        have hab' : a = b := le_antisymm (not_lt.mp hba) (not_lt.mp hab)
        rw [hab', lexLt_total_eq as bs h1 h2]

theorem entryLt_eq_true {a b : String × Int} :
    entryLt a b = true ↔ a.2 < b.2 ∨ (a.2 = b.2 ∧ memLt a.1 b.1 = true) := by
  simp [entryLt]

theorem entryLt_eq_false {a b : String × Int} :
    entryLt a b = false ↔ ¬ a.2 < b.2 ∧ (a.2 = b.2 → memLt a.1 b.1 = false) := by
  constructor
  · intro h
    have h' := h ▸ (entryLt_eq_true (a := a) (b := b))
    constructor
    · intro hlt
      exact absurd (h'.mpr (Or.inl hlt)) (by simp)
    · intro heq
      cases hm : memLt a.1 b.1 with
      | false => rfl
      | true => exact absurd (h'.mpr (Or.inr ⟨heq, hm⟩)) (by simp)
  · intro ⟨h1, h2⟩
    cases h : entryLt a b with
    | false => rfl
    | true =>
      rcases entryLt_eq_true.mp h with hlt | ⟨heq, hm⟩
      · exact absurd hlt h1
      · rw [h2 heq] at hm
        exact absurd hm (by simp)

theorem entryLt_irrefl (a : String × Int) : entryLt a a = false := by
  rw [entryLt_eq_false]
  exact ⟨lt_irrefl _, fun _ => lexLt_irrefl _⟩

theorem entryLt_asymm {a b : String × Int} (h : entryLt a b = true) : entryLt b a = false := by
  rw [entryLt_eq_false]
  rcases entryLt_eq_true.mp h with hlt | ⟨heq, hm⟩
  · exact ⟨fun h' => absurd (lt_trans hlt h') (lt_irrefl _), fun he => absurd he (by omega)⟩
  · exact ⟨fun h' => absurd h' (by omega), fun _ => lexLt_asymm _ _ hm⟩

theorem entryLt_neg_trans {a b c : String × Int} (h1 : entryLt a b = false)
    (h2 : entryLt b c = false) : entryLt a c = false := by
  obtain ⟨s1, m1⟩ := entryLt_eq_false.mp h1
  obtain ⟨s2, m2⟩ := entryLt_eq_false.mp h2
  rw [entryLt_eq_false]
  constructor
  · omega
  · intro hac
    have hab : a.2 = b.2 := by omega
    have hbc : b.2 = c.2 := by omega
    exact lexLt_neg_trans _ _ _ (m1 hab) (m2 hbc)

theorem zminEntry_eq_none (z : ZSet) : zminEntry z = none ↔ z = [] := by
  cases z with
  | nil => simp [zminEntry]
  | cons x rest =>
    simp only [zminEntry]
    cases zminEntry rest <;> simp

theorem zminEntry_mem : ∀ (z : ZSet) (e : String × Int), zminEntry z = some e → e ∈ z
  | [], e, h => by simp [zminEntry] at h
  | x :: rest, e, h => by
    simp only [zminEntry] at h
    cases hr : zminEntry rest with
    | none =>
      rw [hr] at h
      injection h with h
      exact h ▸ List.mem_cons_self _ _
    | some m =>
      rw [hr] at h
      injection h with h
      by_cases hlt : entryLt m x = true
      · rw [if_pos hlt] at h
        exact h ▸ List.mem_cons_of_mem _ (zminEntry_mem rest m hr)
      · rw [if_neg hlt] at h
        exact h ▸ List.mem_cons_self _ _

theorem zminEntry_min : ∀ (z : ZSet) (m : String × Int), zminEntry z = some m →
    ∀ e ∈ z, entryLt e m = false
  | [], m, h => by simp [zminEntry] at h
  | x :: rest, m, h => by
    intro e he
    simp only [zminEntry] at h
    cases hr : zminEntry rest with
    | none =>
      have hrest : rest = [] := (zminEntry_eq_none rest).mp hr
      rw [hr] at h
      injection h with h
      subst h
      subst hrest
      rcases List.mem_cons.mp he with rfl | he'
      · exact entryLt_irrefl _
      · simp at he'
    | some mr =>
      rw [hr] at h
      injection h with h
      by_cases hmx : entryLt mr x = true
      · rw [if_pos hmx] at h
        subst h
        rcases List.mem_cons.mp he with rfl | he'
        · exact entryLt_asymm hmx
        · exact zminEntry_min rest mr hr e he'
      · rw [if_neg hmx] at h
        subst h
        rcases List.mem_cons.mp he with rfl | he'
        · exact entryLt_irrefl _
        · exact entryLt_neg_trans (zminEntry_min rest mr hr e he')
            (Bool.not_eq_true _ ▸ hmx : entryLt mr x = false)

theorem zremove_perm {z : ZSet} {e : String × Int} (h : e ∈ z) : z.Perm (e :: zremove z e) := by
  induction z with
  | nil => simp at h
  | cons x rest ih =>
    by_cases hxe : x = e
    · subst hxe
      rw [zremove, if_pos rfl]
    · rw [zremove, if_neg hxe]
      have he' : e ∈ rest := by
        rcases List.mem_cons.mp h with rfl | h'
        · exact absurd rfl hxe
        · exact h'
      exact ((ih he').cons x).trans (List.Perm.swap e x _)

theorem zremove_sublist : ∀ (z : ZSet) (e : String × Int), List.Sublist (zremove z e) z
  | [], _ => by simp [zremove]
  | x :: rest, e => by
    by_cases hxe : x = e
    · rw [zremove, if_pos hxe]
      exact List.sublist_cons_self x rest
    · rw [zremove, if_neg hxe]
      exact (zremove_sublist rest e).cons₂ x

theorem popList_subset : ∀ (n : Nat) (z : ZSet), ∀ e ∈ popList n z, e ∈ z
  | 0, z => by simp [popList]
  | n + 1, z => by
    intro e he
    simp only [popList] at he
    cases hm : zminEntry z with
    | none => rw [hm] at he; simp at he
    | some m =>
      rw [hm] at he
      rcases List.mem_cons.mp he with rfl | he'
      · exact zminEntry_mem z _ hm
      · exact (zremove_sublist z m).subset (popList_subset n _ e he')

theorem popList_perm : ∀ (n : Nat) (z : ZSet), z.length ≤ n → (popList n z).Perm z
  | 0, z, h => by
    have : z = [] := List.eq_nil_of_length_eq_zero (by omega)
    subst this
    simp [popList]
  | n + 1, z, h => by
    cases hm : zminEntry z with
    | none =>
      have hz : z = [] := (zminEntry_eq_none z).mp hm
      subst hz
      simp [popList, hm]
    | some m =>
      have hmem := zminEntry_mem z m hm
      have hlen : (zremove z m).length ≤ n := by
        have := (zremove_perm hmem).length_eq
        simp at this
        omega
      simp only [popList, hm]
      exact ((popList_perm n (zremove z m) hlen).cons m).trans (zremove_perm hmem).symm

theorem popList_pairwise : ∀ (n : Nat) (z : ZSet),
    (popList n z).Pairwise (fun a b => entryLt b a = false)
  | 0, z => by simp [popList]
  | n + 1, z => by
    cases hm : zminEntry z with
    | none => simp [popList, hm]
    | some m =>
      simp only [popList, hm]
      refine List.Pairwise.cons ?_ (popList_pairwise n (zremove z m))
      intro e he
      exact zminEntry_min z m hm e ((zremove_sublist z m).subset (popList_subset n _ e he))

theorem pairwise_before {α : Type} {R : α → α → Prop} :
    ∀ (l : List α) (a b : α), l.Pairwise R → a ∈ l → b ∈ l → ¬ R b a → R b b →
      List.Sublist [a, b] l
  | [], a, b, _, ha, _, _, _ => absurd ha (by simp)
  | x :: l, a, b, hp, ha, hb, hnR, hRbb => by
    obtain ⟨hx, hp'⟩ := List.pairwise_cons.mp hp
    rcases List.mem_cons.mp ha with rfl | ha'
    · have hb' : b ∈ l := by
        rcases List.mem_cons.mp hb with rfl | hb'
        · exact absurd hRbb hnR
        · exact hb'
      exact (List.singleton_sublist.mpr hb').cons₂ a
    · have hb' : b ∈ l := by
        rcases List.mem_cons.mp hb with rfl | hb'
        · exact absurd (hx a ha') hnR
        · exact hb'
      exact (pairwise_before l a b hp' ha' hb' hnR hRbb).cons x

theorem zadd_fresh (z : ZSet) (m : String) (s : Int)
    (h : (List.any z fun e => e.1 = m) = false) :
    zadd z m s = List.append z [(m, s)] := by
  rw [zadd, if_neg (by simp [h])]

theorem zadd_length (z : ZSet) (m : String) (s : Int) :
    (zadd z m s).length =
      if (List.any z fun e => e.1 = m) = true then z.length else z.length + 1 := by
  by_cases h : (List.any z fun e => e.1 = m) = true
  · rw [zadd, if_pos (by simp [h]), if_pos h]
    exact List.length_map _ _
  · rw [zadd, if_neg (by simp at h ⊢; exact h), if_neg h]
    simp

theorem dequeue_task_empty (st : RedisState) (q : String) (h : st.queues q = []) :
    dequeue_task false st q = (st, none) := by
  simp [dequeue_task, h, zminEntry]

theorem dequeue_task_min (st : RedisState) (q : String) (e : String × Int)
    (h : zminEntry (st.queues q) = some e) :
    dequeue_task false st q =
      ({ st with queues := fun n => if n = q then zremove (st.queues q) e else st.queues n },
        loads e.1) := by
  simp [dequeue_task, h]

theorem popNState_filterMap : ∀ (n : Nat) (st : RedisState) (q : String),
    (∀ e ∈ st.queues q, (loads e.1).isSome = true) →
    (popNState st q n).1 = (popList n (st.queues q)).filterMap (fun e => loads e.1)
  | 0, st, q, _ => by simp [popNState, popList]
  | n + 1, st, q, h => by
    cases hm : zminEntry (st.queues q) with
    | none =>
      have hz : st.queues q = [] := (zminEntry_eq_none _).mp hm
      rw [show popNState st q (n + 1) = ([], st) from by
          simp only [popNState, dequeue_task_empty st q hz]]
      simp [popList, hm]
    | some e =>
      have he := zminEntry_mem _ _ hm
      obtain ⟨j, hj⟩ := Option.isSome_iff_exists.mp (h e he)
      have hd : dequeue_task false st q =
          ({ st with queues := fun n =>
              if n = q then zremove (st.queues q) e else st.queues n }, some j) := by
        rw [dequeue_task_min st q e hm, hj]
      have hq1 : ({ st with queues := fun n =>
          if n = q then zremove (st.queues q) e else st.queues n } : RedisState).queues q
            = zremove (st.queues q) e := by
        simp
      simp only [popNState, hd]
      rw [popNState_filterMap n _ q (by
        rw [hq1]
        intro e' he'
        exact h e' ((zremove_sublist _ _).subset he'))]
      rw [hq1]
      simp only [popList, hm, List.filterMap_cons, hj]

theorem enqueueAll_queues : ∀ (L : List (Json × Int)) (st : RedisState) (q : String),
    (((st.queues q).map Prod.fst ++ L.map fun pp => dumps pp.1).Nodup) →
    (enqueueAll st q L).queues q = st.queues q ++ L.map (fun pp => (dumps pp.1, -pp.2))
  | [], st, q, _ => by simp [enqueueAll]
  | (p, pr) :: L, st, q, h => by
    have hfresh : (List.any (st.queues q) fun e => e.1 = dumps p) = false := by
      cases hq : List.any (st.queues q) (fun e => e.1 = dumps p) with
      | false => rfl
      | true =>
        exfalso
        obtain ⟨e, hel, hep⟩ := List.any_eq_true.mp hq
        have he : e.1 = dumps p := of_decide_eq_true hep
        have h1 : dumps p ∈ (st.queues q).map Prod.fst := he ▸ List.mem_map_of_mem _ hel
        have h2 : dumps p ∈ ((p, pr) :: L).map (fun pp => dumps pp.1) := by simp
        exact (List.disjoint_of_nodup_append h) h1 h2
    have hst1 : (enqueue_task false st q p pr).1.queues q
        = st.queues q ++ [(dumps p, -pr)] := by
      simp [enqueue_task, zadd_fresh _ _ _ hfresh]
    have hnodup' : (((enqueue_task false st q p pr).1.queues q).map Prod.fst
        ++ L.map fun pp => dumps pp.1).Nodup := by
      rw [hst1]
      have h' := h
      simp only [List.map_cons] at h'
      rw [List.append_cons] at h'
      simpa using h'
    simp only [enqueueAll]
    rw [enqueueAll_queues L _ q hnodup', hst1]
    simp

/-- Claim C10: enqueue on an empty queue followed immediately by dequeue
returns the payload that was enqueued, byte-identically: the member
stored is `json.dumps` of the payload and the dequeued value is
`json.loads` of that member (round-trip identity through the Store's
serialization). -/
theorem C10_roundtrip (st : RedisState) (q : String) (p : Json) (pr : Int)
    (h0 : st.queues q = []) :
    (dequeue_task false (enqueue_task false st q p pr).1 q).2 = some p := by
  have hq : (enqueue_task false st q p pr).1.queues q = [(dumps p, -pr)] := by
    simp [enqueue_task, h0, zadd]
  have hmin : zminEntry ((enqueue_task false st q p pr).1.queues q)
      = some (dumps p, -pr) := by
    rw [hq]
    rfl
  rw [dequeue_task_min _ _ _ hmin]
  exact loads_dumps p

theorem C10_roundtrip_witness :
    (dequeue_task false (enqueue_task false initialState "ocr_extraction" exTask 5).1
      "ocr_extraction").2 = some exTask :=
  C10_roundtrip initialState "ocr_extraction" exTask 5 rfl

theorem C9_counterexample :
    get_queue_size false (enqueue_task false initialState "q" exTask 5).1 "q" = 1
    ∧ get_queue_size false
        (enqueue_task false (enqueue_task false initialState "q" exTask 5).1 "q" exTask 5).1
        "q" = 1 :=
  ⟨rfl, rfl⟩

/-- Claim C9 (amended): the per-type queue is a sorted set keyed by the
serialized payload, not a multiset: an enqueue grows the queue by one
exactly when the serialized payload is not already a member; enqueueing
an identical payload re-scores the existing entry and leaves the size
unchanged. -/
theorem C9_enqueue_size (st : RedisState) (q : String) (td : Json) (pr : Int) :
    get_queue_size false (enqueue_task false st q td pr).1 q =
      if (List.any (st.queues q) fun e => e.1 = dumps td) = true
      then get_queue_size false st q
      else get_queue_size false st q + 1 := by
  by_cases h : (List.any (st.queues q) fun e => e.1 = dumps td) = true
  · rw [if_pos h]
    simp [get_queue_size, enqueue_task, zadd_length, h]
  · rw [if_neg h]
    simp [get_queue_size, enqueue_task, zadd_length, h]

theorem C7_counterexample :
    (workerStep true initialState "ocr_extraction" "w0" (.returns exResult 1)).2
      = WorkerAction.idle
    ∧ WorkerAction.idle ≠ WorkerAction.backoff :=
  ⟨rfl, by decide⟩

/-- Claim C7 (amended): a transient store error during a worker's dequeue
is swallowed inside `RedisService.dequeue_task` (which returns empty), so
the worker takes the 1-second empty-queue wait, never the 5-second
backoff branch; a store error during a status write is likewise
swallowed inside `set_task_status`.  In both cases the worker loop
continues: the iteration always yields a successor state and the store
error never escapes. -/
theorem C7_store_errors_swallowed :
    (∀ (st : RedisState) (q wid : String) (run : HandlerRun),
      workerStep true st q wid run = (st, WorkerAction.idle))
    ∧ (∀ (st : RedisState) (q : String), dequeue_task true st q = (st, none))
    ∧ (∀ (st : RedisState) (tid s : String) (r : Option Json),
      set_task_status true st tid s r = st) :=
  ⟨fun _ _ _ _ => rfl, fun _ _ => rfl, fun _ _ _ _ => rfl⟩

theorem C1_counterexample :
    (dequeue_task false
      (enqueueAll initialState "ocr_extraction" [(exFirst, 5), (exSecond, 5)])
      "ocr_extraction").2 = some exSecond
    ∧ exSecond ≠ exFirst := by
  refine ⟨rfl, ?_⟩
  simp [exFirst, exSecond]

/-- Claim C1 (amended): the rank key is `(−priority, member)` where the
member is the serialized payload compared lexicographically — there is
no insertion sequence number.  For two distinct tasks of equal priority
enqueued in order `A` then `B`, dequeue returns whichever serializes to
the lexicographically smaller member, not the first-submitted one. -/
theorem C1_equal_priority_lex (st : RedisState) (q : String) (A B : Json) (pr : Int)
    (h0 : st.queues q = []) (hne : dumps A ≠ dumps B) :
    (dequeue_task false (enqueueAll st q [(A, pr), (B, pr)]) q).2
      = some (if memLt (dumps B) (dumps A) = true then B else A) := by
  have hq : (enqueueAll st q [(A, pr), (B, pr)]).queues q
      = [(dumps A, -pr), (dumps B, -pr)] := by
    rw [enqueueAll_queues _ _ _ (by simp [h0, hne])]
    simp [h0]
  have hlt : entryLt (dumps B, -pr) (dumps A, -pr) = memLt (dumps B) (dumps A) := by
    cases hm : memLt (dumps B) (dumps A) with
    | true => exact entryLt_eq_true.mpr (Or.inr ⟨rfl, hm⟩)
    | false =>
      exact entryLt_eq_false.mpr ⟨lt_irrefl _, fun _ => hm⟩
  cases hm : memLt (dumps B) (dumps A) with
  | true =>
    have hmin : zminEntry ((enqueueAll st q [(A, pr), (B, pr)]).queues q)
        = some (dumps B, -pr) := by
      rw [hq]
      simp only [zminEntry]
      rw [hlt, hm, if_pos rfl]
    rw [dequeue_task_min _ _ _ hmin, if_pos rfl]
    exact loads_dumps B
  | false =>
    have hmin : zminEntry ((enqueueAll st q [(A, pr), (B, pr)]).queues q)
        = some (dumps A, -pr) := by
      rw [hq]
      simp only [zminEntry]
      rw [hlt, hm]
      simp
    rw [dequeue_task_min _ _ _ hmin, if_neg (by simp)]
    exact loads_dumps A

theorem C1_equal_priority_lex_witness :
    (dequeue_task false (enqueueAll initialState "ocr_extraction"
      [(exFirst, 5), (exSecond, 5)]) "ocr_extraction").2
      = some (if memLt (dumps exSecond) (dumps exFirst) = true then exSecond else exFirst) :=
  C1_equal_priority_lex initialState "ocr_extraction" exFirst exSecond 5 rfl (by decide)

/-- Claim C2: for two tasks pending on one queue with priorities
`p1 > p2` and no intervening operations, successive dequeues return the
`p1` task strictly before the `p2` task (`zpopmin` on scores
`−priority`). -/
theorem C2_priority_order (st : RedisState) (q : String) (L : List (Json × Int))
    (a b : Json) (p1 p2 : Int)
    (h0 : st.queues q = []) (hnd : (L.map fun pp => dumps pp.1).Nodup)
    (ha : (a, p1) ∈ L) (hb : (b, p2) ∈ L) (hp : p2 < p1) :
    List.Sublist [a, b] (popNState (enqueueAll st q L) q L.length).1 := by
  have hq : (enqueueAll st q L).queues q = L.map (fun pp => (dumps pp.1, -pp.2)) := by
    rw [enqueueAll_queues L st q (by simp [h0, hnd])]
    simp [h0]
  have hloads : ∀ e ∈ (enqueueAll st q L).queues q, (loads e.1).isSome = true := by
    rw [hq]
    intro e he
    obtain ⟨pp, _, rfl⟩ := List.mem_map.mp he
    simp [loads_dumps pp.1]
  rw [popNState_filterMap L.length _ q hloads, hq]
  have hlen : (L.map fun pp => (dumps pp.1, -pp.2)).length ≤ L.length := by simp
  have hperm := popList_perm L.length _ hlen
  have hpair := popList_pairwise L.length (L.map fun pp => (dumps pp.1, -pp.2))
  have hea : ((dumps a, -p1) : String × Int)
      ∈ popList L.length (L.map fun pp => (dumps pp.1, -pp.2)) :=
    hperm.mem_iff.mpr (List.mem_map_of_mem _ ha)
  have heb : ((dumps b, -p2) : String × Int)
      ∈ popList L.length (L.map fun pp => (dumps pp.1, -pp.2)) :=
    hperm.mem_iff.mpr (List.mem_map_of_mem _ hb)
  have hlt : entryLt (dumps a, -p1) (dumps b, -p2) = true :=
    entryLt_eq_true.mpr (Or.inl (by simp; omega))
  have hsub := pairwise_before _ (dumps a, -p1) (dumps b, -p2) hpair hea heb
    (by simp [hlt]) (entryLt_irrefl _)
  have := hsub.filterMap (fun e => loads e.1)
  simpa [loads_dumps] using this

theorem C2_priority_order_witness :
    List.Sublist [exP9, exP5]
      (popNState (enqueueAll initialState "ocr" [(exP5, 5), (exP9, 9), (exP1, 1)])
        "ocr" [(exP5, 5), (exP9, 9), (exP1, 1)].length).1 :=
  C2_priority_order initialState "ocr" [(exP5, 5), (exP9, 9), (exP1, 1)]
    exP9 exP5 9 5 rfl (by decide) (by simp) (by simp) (by decide)

/-- Claim C3: dequeue is the atomic `ZPOPMIN`, so any concurrent callers
execute as some serialization of single pops.  Draining a queue of
pairwise-distinct pending entries with at least as many pops as entries
yields each pending payload exactly once: the results are a permutation
of the pending payloads, with no duplicates. -/
theorem C3_concurrent_drain (st : RedisState) (q : String) (L : List (Json × Int)) (n : Nat)
    (h0 : st.queues q = []) (hnd : (L.map Prod.fst).Nodup) (hn : L.length ≤ n) :
    (popNState (enqueueAll st q L) q n).1.Perm (L.map Prod.fst)
    ∧ (popNState (enqueueAll st q L) q n).1.Nodup := by
  have hmap : (L.map fun pp => dumps pp.1) = (L.map Prod.fst).map dumps := by
    simp [List.map_map]
  have hndm : (L.map fun pp => dumps pp.1).Nodup := by
    rw [hmap]
    exact hnd.map (fun x y h => dumps_inj h)
  have hq : (enqueueAll st q L).queues q = L.map (fun pp => (dumps pp.1, -pp.2)) := by
    rw [enqueueAll_queues L st q (by simp [h0, hndm])]
    simp [h0]
  have hloads : ∀ e ∈ (enqueueAll st q L).queues q, (loads e.1).isSome = true := by
    rw [hq]
    intro e he
    obtain ⟨pp, _, rfl⟩ := List.mem_map.mp he
    simp [loads_dumps pp.1]
  rw [popNState_filterMap n _ q hloads, hq]
  have hlen : (L.map fun pp => (dumps pp.1, -pp.2)).length ≤ n := by simp [hn]
  have hperm := (popList_perm n _ hlen).filterMap (fun e => loads e.1)
  have hfm : (L.map fun pp => (dumps pp.1, -pp.2)).filterMap (fun e => loads e.1)
      = L.map Prod.fst := by
    rw [List.filterMap_map]
    have : ((fun e : String × Int => loads e.1) ∘ fun pp : Json × Int => (dumps pp.1, -pp.2))
        = fun pp : Json × Int => some pp.1 :=
      funext fun pp => loads_dumps pp.1
    rw [this, show (fun pp : Json × Int => some pp.1) = some ∘ Prod.fst from rfl,
      List.filterMap_eq_map]
  rw [hfm] at hperm
  exact ⟨hperm, hperm.nodup_iff.mpr hnd⟩

theorem C3_concurrent_drain_witness :
    (popNState (enqueueAll initialState "ocr" [(exP5, 5), (exP9, 9), (exP1, 1)]) "ocr" 8).1.Perm
      ([(exP5, 5), (exP9, 9), (exP1, 1)].map Prod.fst)
    ∧ (popNState (enqueueAll initialState "ocr" [(exP5, 5), (exP9, 9), (exP1, 1)])
        "ocr" 8).1.Nodup :=
  C3_concurrent_drain initialState "ocr" [(exP5, 5), (exP9, 9), (exP1, 1)] 8 rfl
    (by simp [exP5, exP9, exP1]) (by decide)

theorem C4_counterexample :
    (submit_task initialState exTask99).2 = Except.ok "t2"
    ∧ get_queue_size false (submit_task initialState exTask99).1 "ocr_extraction" = 1 :=
  ⟨rfl, rfl⟩

/-- Claim C4 (amended): `submit_task` raises `ValueError` for a missing
or unregistered task type before touching the store, so those failures
leave queue and status store unchanged; but priority is never validated:
a submission with any integer priority, in range or not, succeeds and
grows the queue. -/
theorem C4_submit_validation :
    (∀ (st : RedisState) (td : Json) (s : String) (tid : Json),
      jget td "task_type" = some (.str s) → s ≠ "" →
      jget td "task_id" = some tid → truthy tid = true →
      TaskType.ofString? s = none →
      submit_task st td = (st, Except.error ("Invalid task type: " ++ s)))
    ∧ (∀ (st : RedisState) (td : Json) (s : String) (tt : TaskType) (tid : Json),
      jget td "task_type" = some (.str s) →
      jget td "task_id" = some tid → truthy tid = true →
      TaskType.ofString? s = some tt →
      (List.any (st.queues s) fun e => e.1 = dumps td) = false →
      (submit_task st td).2 = Except.ok (taskKey (some tid))
      ∧ get_queue_size false (submit_task st td).1 s = get_queue_size false st s + 1) := by
  constructor
  · intro st td s tid h1 hs h3 h4 h5
    have hstr : truthy (Json.str s) = true := by
      simp only [truthy, ne_eq, decide_not, Bool.not_eq_true', decide_eq_false_iff_not]
      intro hd
      exact hs (stringDataInj hd)
    unfold submit_task
    rw [h1, h3]
    simp [hstr, h4, h5]
  · intro st td s tt tid h1 h3 h4 h5 h6
    have hstr : truthy (Json.str s) = true := by
      simp only [truthy, ne_eq, decide_not, Bool.not_eq_true', decide_eq_false_iff_not]
      intro hd
      rw [stringDataInj hd] at h5
      simp [TaskType.ofString?] at h5
    unfold submit_task
    rw [h1, h3]
    simp only [hstr, h4, h5]
    constructor
    · rw [if_neg (by simp [hstr, h4])]
    · rw [if_neg (by simp [hstr, h4])]
      simp [get_queue_size, enqueue_task, set_task_status, zadd_length, h6]

theorem C4_submit_validation_witness :
    (submit_task initialState exBadType
      = (initialState, Except.error ("Invalid task type: " ++ "qqq")))
    ∧ ((submit_task initialState exTask99).2 = Except.ok (taskKey (some (.str "t2")))
      ∧ get_queue_size false (submit_task initialState exTask99).1 "ocr_extraction"
          = get_queue_size false initialState "ocr_extraction" + 1) :=
  ⟨C4_submit_validation.1 initialState exBadType "qqq" (.str "t9") rfl (by decide) rfl rfl rfl,
   C4_submit_validation.2 initialState exTask99 "ocr_extraction" .ocr_extraction (.str "t2")
     rfl rfl rfl rfl rfl⟩

theorem C5_counterexample :
    ((process_task (submit_task initialState exTask).1 "w0" exTask
        (.returns exResult 400)).tasks "t1").map TaskHash.status = some statusFailed
    ∧ ((process_task (submit_task initialState exTask).1 "w0" exTask
        (.returns exResult 400)).tasks "t1").bind TaskHash.result
        = some (dumps (Json.obj [("error", Json.str "Task timed out")]))
    ∧ (loads (dumps (Json.obj [("error", Json.str "Task timed out")]))).bind
        (fun j => jget j "processing_time") = none :=
  ⟨rfl, rfl, rfl⟩

/-- Claim C5 (amended): a processor invocation exceeding the configured
deadline (default 300) is cut off by `asyncio.wait_for` exactly at the
deadline and recorded as a `StatusRecord` with status FAILED and result
`{"error": "Task timed out"}`; no `processing_time` is recorded in this
branch (the timeout handler stores only the error text). -/
theorem C5_timeout (st : RedisState) (wid : String) (td : Json) (s : String) (tt : TaskType)
    (run : HandlerRun)
    (hs : jget td "task_type" = some (.str s)) (htt : TaskType.ofString? s = some tt)
    (hd : PROCESSING_TIMEOUT < run.duration) :
    (process_task st wid td run).tasks (taskKey (jget td "task_id"))
      = some ⟨statusFailed, st.now,
          some (dumps (Json.obj [("error", Json.str "Task timed out")]))⟩
    ∧ waitFor run PROCESSING_TIMEOUT = (.timedOut, PROCESSING_TIMEOUT) := by
  have hw : waitFor run PROCESSING_TIMEOUT = (.timedOut, PROCESSING_TIMEOUT) := by
    cases run with
    | returns r d =>
      simp only [HandlerRun.duration] at hd
      simp [waitFor, Nat.not_le.mpr hd]
    | raises m d =>
      simp only [HandlerRun.duration] at hd
      simp [waitFor, Nat.not_le.mpr hd]
  refine ⟨?_, hw⟩
  unfold process_task
  rw [hs]
  dsimp only
  rw [htt]
  dsimp only
  rw [hw]
  dsimp only
  simp [set_task_status, truthy]

theorem C5_timeout_witness :
    (process_task initialState "w0" exTask (.returns exResult 400)).tasks
        (taskKey (jget exTask "task_id"))
      = some ⟨statusFailed, initialState.now,
          some (dumps (Json.obj [("error", Json.str "Task timed out")]))⟩
    ∧ waitFor (.returns exResult 400) PROCESSING_TIMEOUT
        = (.timedOut, PROCESSING_TIMEOUT) :=
  C5_timeout initialState "w0" exTask "ocr_extraction" .ocr_extraction
    (.returns exResult 400) rfl rfl (by decide)

theorem C6_counterexample :
    ((process_task (submit_task initialState exTask).1 "w0" exTask
        (.raises "" 10)).tasks "t1").bind TaskHash.result
      = some (dumps (Json.obj [("error", Json.str "")]))
    ∧ (loads (dumps (Json.obj [("error", Json.str "")]))).bind (fun j => jget j "error")
        = some (Json.str "") :=
  ⟨rfl, rfl⟩

/-- Claim C6 (amended): a processor that raises is recorded as a
`StatusRecord` with status FAILED and result `{"error": str(e)}` — the
error text is exactly the exception's message, which may be empty; no
`result` or `processing_time` value is stored.  The exception is caught
inside `_process_task`, so the worker iteration that claimed the task
completes normally (`processed`) and the loop continues. -/
theorem C6_handler_raises (st : RedisState) (wid : String) (td : Json) (s : String)
    (tt : TaskType) (msg : String) (d : Nat)
    (hs : jget td "task_type" = some (.str s)) (htt : TaskType.ofString? s = some tt)
    (hd : d ≤ PROCESSING_TIMEOUT) :
    ((process_task st wid td (.raises msg d)).tasks (taskKey (jget td "task_id"))
      = some ⟨statusFailed, st.now, some (dumps (Json.obj [("error", Json.str msg)]))⟩)
    ∧ (∀ (st2 : RedisState) (q : String) (fields : List (String × Json)),
      (dequeue_task false st2 q).2 = some (.obj fields) → truthy (.obj fields) = true →
      (workerStep false st2 q wid (.raises msg d)).2 = WorkerAction.processed) := by
  constructor
  · have hw : waitFor (.raises msg d) PROCESSING_TIMEOUT = (.raised msg, d) := by
      simp [waitFor, hd]
    unfold process_task
    rw [hs]
    dsimp only
    rw [htt]
    dsimp only
    rw [hw]
    dsimp only
    simp [set_task_status, truthy]
  · intro st2 q fields hdq htr
    have hpair : dequeue_task false st2 q
        = ((dequeue_task false st2 q).1, some (.obj fields)) := by
      rw [← hdq]
    unfold workerStep
    rw [hpair]
    dsimp only
    simp [htr]

theorem C6_handler_raises_witness :
    ((process_task initialState "w0" exTask (.raises "" 10)).tasks
        (taskKey (jget exTask "task_id"))
      = some ⟨statusFailed, initialState.now,
          some (dumps (Json.obj [("error", Json.str "")]))⟩)
    ∧ (workerStep false (submit_task initialState exTask).1 "ocr_extraction" "w0"
        (.raises "" 10)).2 = WorkerAction.processed := by
  have h := C6_handler_raises initialState "w0" exTask "ocr_extraction" .ocr_extraction
    "" 10 rfl rfl (by decide)
  exact ⟨h.1, h.2 (submit_task initialState exTask).1 "ocr_extraction"
    [("task_id", .str "t1"), ("task_type", .str "ocr_extraction"), ("priority", .num 5)]
    rfl rfl⟩

theorem C8_counterexample :
    (((workerStep false (submit_task initialState exTask).1 "ocr_extraction" "w0"
        (.returns exResult 10)).1.tasks "t1").map TaskHash.status = some statusCompleted)
    ∧ ((((submit_task (workerStep false (submit_task initialState exTask).1 "ocr_extraction"
        "w0" (.returns exResult 10)).1 exTask).1.tasks "t1").map TaskHash.status)
          = some statusPending) :=
  ⟨rfl, rfl⟩

/-- Claim C8 (amended): within one claim a task always reaches a
terminal status — every `_process_task` call ends by writing COMPLETED
or FAILED for the claimed task.  But terminal statuses are not
protected: `set_task_status` overwrites unconditionally, and
re-submitting an existing task id resets its record to PENDING, so
COMPLETED/FAILED are not terminal under re-submission. -/
theorem C8_status_overwrite :
    (∀ (st : RedisState) (wid : String) (td : Json) (run : HandlerRun),
      ∃ h, (process_task st wid td run).tasks (taskKey (jget td "task_id")) = some h
        ∧ (h.status = statusCompleted ∨ h.status = statusFailed))
    ∧ (∀ (st : RedisState) (td : Json) (t : String),
      (submit_task st td).2 = Except.ok t →
      ((submit_task st td).1.tasks t).map TaskHash.status = some statusPending) := by
  constructor
  · intro st wid td run
    unfold process_task
    cases h1 : jget td "task_type" with
    | none =>
      dsimp only
      exact ⟨⟨statusFailed, st.now, some (dumps (Json.obj
          [("error", Json.str "task_type is not a valid TaskType")]))⟩,
        by simp [set_task_status, truthy], Or.inr rfl⟩
    | some j =>
      cases j with
      | str s =>
        dsimp only
        cases h2 : TaskType.ofString? s with
        | none =>
          dsimp only
          exact ⟨⟨statusFailed, st.now, some (dumps (Json.obj
              [("error", Json.str (s ++ " is not a valid TaskType"))]))⟩,
            by simp [set_task_status, truthy], Or.inr rfl⟩
        | some tt =>
          dsimp only
          rcases hwf : waitFor run PROCESSING_TIMEOUT with ⟨res, tm⟩
          cases res with
          | ok r =>
            dsimp only
            exact ⟨⟨statusCompleted, st.now, some (dumps (Json.obj
                [("result", r), ("processing_time", Json.num (Int.ofNat tm)),
                 ("worker_id", Json.str wid)]))⟩,
              by simp [set_task_status, truthy], Or.inl rfl⟩
          | timedOut =>
            dsimp only
            exact ⟨⟨statusFailed, st.now, some (dumps (Json.obj
                [("error", Json.str "Task timed out")]))⟩,
              by simp [set_task_status, truthy], Or.inr rfl⟩
          | raised m =>
            dsimp only
            exact ⟨⟨statusFailed, st.now, some (dumps (Json.obj
                [("error", Json.str m)]))⟩,
              by simp [set_task_status, truthy], Or.inr rfl⟩
      | null =>
        exact ⟨⟨statusFailed, st.now, some (dumps (Json.obj
            [("error", Json.str "task_type is not a valid TaskType")]))⟩,
          by simp [set_task_status, truthy], Or.inr rfl⟩
      | bool b =>
        exact ⟨⟨statusFailed, st.now, some (dumps (Json.obj
            [("error", Json.str "task_type is not a valid TaskType")]))⟩,
          by simp [set_task_status, truthy], Or.inr rfl⟩
      | num n =>
        exact ⟨⟨statusFailed, st.now, some (dumps (Json.obj
            [("error", Json.str "task_type is not a valid TaskType")]))⟩,
          by simp [set_task_status, truthy], Or.inr rfl⟩
      | arr xs =>
        exact ⟨⟨statusFailed, st.now, some (dumps (Json.obj
            [("error", Json.str "task_type is not a valid TaskType")]))⟩,
          by simp [set_task_status, truthy], Or.inr rfl⟩
      | obj kvs =>
        exact ⟨⟨statusFailed, st.now, some (dumps (Json.obj
            [("error", Json.str "task_type is not a valid TaskType")]))⟩,
          by simp [set_task_status, truthy], Or.inr rfl⟩
  · intro st td t hok
    by_cases hg : ((!(jget td "task_type").elim false truthy) = true
        ∨ (!(jget td "task_id").elim false truthy) = true)
    · exfalso
      unfold submit_task at hok
      rw [if_pos hg] at hok
      simp at hok
    · cases h1 : jget td "task_type" with
      | none => exact absurd (Or.inl (by simp [h1])) hg
      | some j =>
        cases j with
        | str s =>
          cases h2 : TaskType.ofString? s with
          | none =>
            exfalso
            unfold submit_task at hok
            rw [if_neg hg, h1] at hok
            dsimp only at hok
            rw [h2] at hok
            simp at hok
          | some tt =>
            unfold submit_task at hok ⊢
            rw [if_neg hg, h1] at hok
            rw [if_neg hg, h1]
            dsimp only at hok ⊢
            rw [h2] at hok
            rw [h2]
            dsimp only at hok ⊢
            injection hok with hok
            subst hok
            simp [enqueue_task, set_task_status]
        | null =>
          exfalso
          unfold submit_task at hok
          rw [if_neg hg, h1] at hok
          simp at hok
        | bool b =>
          exfalso
          unfold submit_task at hok
          rw [if_neg hg, h1] at hok
          simp at hok
        | num n =>
          exfalso
          unfold submit_task at hok
          rw [if_neg hg, h1] at hok
          simp at hok
        | arr xs =>
          exfalso
          unfold submit_task at hok
          rw [if_neg hg, h1] at hok
          simp at hok
        | obj kvs =>
          exfalso
          unfold submit_task at hok
          rw [if_neg hg, h1] at hok
          simp at hok

theorem C8_status_overwrite_witness :
    (∃ h, (process_task initialState "w0" exTask (.returns exResult 10)).tasks
        (taskKey (jget exTask "task_id")) = some h
      ∧ (h.status = statusCompleted ∨ h.status = statusFailed))
    ∧ (((submit_task (workerStep false (submit_task initialState exTask).1 "ocr_extraction"
          "w0" (.returns exResult 10)).1 exTask).1.tasks "t1").map TaskHash.status
        = some statusPending) :=
  ⟨C8_status_overwrite.1 initialState "w0" exTask (.returns exResult 10),
   C8_status_overwrite.2 _ exTask "t1" rfl⟩
